import Mathlib

/-!
# Verification of the Derivadas function-analyzer pipeline

Shallow embedding of the analysis core of `analizador_funcion_streamlit.py`
(lines 48-165): derivative sampling over a linspace, sign-change sweep with
`nsolve`/bisection fallback, denominator-zero merge, rounding/dedup of
critical points, interval labelling at midpoints, and extrema classification.

Numbers are modelled by exact rationals `ℚ` (the idealized-real semantics of
the float code).  A numeric evaluation of a compiled expression at a point can
yield a value, a NaN, or raise an exception; this three-way outcome is the
type `EvalResult`.  The sympy pieces (symbolic `nsolve`, the denominator-zero
solver) are opaque library calls, so they enter the model as parameters: the
solver as a function from the seed to an optional root, the denominator-zero
step as the optional list of solutions it returned (`none` = the surrounding
`try` failed, a `none` element = `float(z)` raised for that root).
-/

namespace Derivadas

/-- Outcome of evaluating a lambdified expression at one rational point:
a real value, a NaN result, or a raised exception. -/
inductive EvalResult where
  | val (q : ℚ) : EvalResult
  | nan : EvalResult
  | err : EvalResult
deriving DecidableEq

/-- A compiled numeric evaluator (`sp.lambdify` result), point-wise. -/
abbrev Evaluator := ℚ → EvalResult

/-- The `1e-8` slack used when accepting an `nsolve` root near the domain. -/
def eps8 : ℚ := 1 / 100000000

/-- The step `h = 1e-4` of the finite-difference sign-change fallback. -/
def h4 : ℚ := 1 / 10000

/-- `True` unless the evaluation raised. -/
def notErr (r : EvalResult) : Bool :=
  match r with
  | EvalResult.err => false
  | _ => true

/-- `np.linspace(x_min, x_max, samples)`: `samples` evenly spaced points with
both endpoints included (`xs[i] = xmin + i * (xmax - xmin) / (n - 1)`). -/
def linspace (xmin xmax : ℚ) (n : ℕ) : List ℚ :=
  (List.range n).map fun i => xmin + (xmax - xmin) * i / ((n : ℚ) - 1)

/-- The vectorized call `f1_num(xs)` (line 51).  It raises (returns `none`)
exactly when the evaluation raises at some sample point; otherwise the array
of per-point results (NaN entries included) comes back. -/
def vectorEval (f1 : Evaluator) (xs : List ℚ) : Option (List EvalResult) :=
  if xs.all fun xi => notErr (f1 xi) then some (xs.map f1) else none

/-- The per-point fallback on line 54:
`np.array([np.nan if np.isnan(xi) else f1_num(xi) for xi in xs])`.
The guard tests the INPUT `xi`, which is a finite linspace sample and never
NaN, so every point takes the unguarded `f1_num(xi)` branch; if that call
raises, the exception escapes the surrounding `except` block and the run
aborts (`none`). -/
def pointwiseFallback (f1 : Evaluator) (xs : List ℚ) : Option (List EvalResult) :=
  if xs.all fun xi => notErr (f1 xi) then some (xs.map f1) else none

/-- Lines 50-54: vectorized evaluation of the first derivative over the
samples, with the per-point fallback on exception. -/
def sampleDerivs (f1 : Evaluator) (xs : List ℚ) : Option (List EvalResult) :=
  match vectorEval f1 xs with
  | some ds => some ds
  | none => pointwiseFallback f1 xs

/-- `np.sign`. -/
def npSign (q : ℚ) : ℚ := if 0 < q then 1 else if q < 0 then -1 else 0

/-- Lines 74-87: the 40-iteration bisection fallback on the bracket `(a, b)`.
Each iteration takes the midpoint `m = (a+b)/2`; the loop records `rr = m`
and stops only when `f1_num(m) == 0` exactly; otherwise it keeps the half
bracket chosen by `np.sign(f1_num(a)) * np.sign(f1_num(m)) < 0` (a NaN
product compares false, choosing the right half).  `none` covers the three
silent-discard outcomes: a raised evaluation (caught by `except: pass`),
and the fuel running out with `rr` still NaN. -/
def bisect (f1 : Evaluator) : ℕ → ℚ → ℚ → Option ℚ
  | 0, _, _ => none
  | Nat.succ n, a, b =>
    match f1 ((a + b) / 2) with
    | EvalResult.err => none
    | EvalResult.nan =>
        match f1 a with
        | EvalResult.err => none
        | _ => bisect f1 n ((a + b) / 2) b
    | EvalResult.val q =>
        if q = 0 then some ((a + b) / 2)
        else
          match f1 a with
          | EvalResult.err => none
          | EvalResult.nan => bisect f1 n ((a + b) / 2) b
          | EvalResult.val p =>
              if npSign p * npSign q < 0 then bisect f1 n a ((a + b) / 2)
              else bisect f1 n ((a + b) / 2) b

/-- Lines 63-89, body of one sweep iteration over the consecutive pair
`(a, b)` with derivative samples `(da, db)`: skip on NaN at either end;
record `a` when `da == 0` exactly; on a strict sign change `da*db < 0`
refine with `nsolve` seeded at the midpoint, accepting the root only inside
`[xmin - 1e-8, xmax + 1e-8]`, and fall back to bisection when `nsolve`
raises. -/
def pairCandidates (f1 : Evaluator) (ns : ℚ → Option ℚ) (xmin xmax a b : ℚ)
    (da db : EvalResult) : List ℚ :=
  match da, db with
  | EvalResult.val p, EvalResult.val q =>
      (if p = 0 then [a] else []) ++
      (if p * q < 0 then
        match ns ((a + b) / 2) with
        | some root =>
            if xmin - eps8 ≤ root ∧ root ≤ xmax + eps8 then [root] else []
        | none => (bisect f1 40 a b).toList
      else [])
  | _, _ => []

/-- Lines 60-89: the sweep over consecutive sample pairs, on the zipped list
of samples and derivative values. -/
def sweepZip (f1 : Evaluator) (ns : ℚ → Option ℚ) (xmin xmax : ℚ) :
    List (ℚ × EvalResult) → List ℚ
  | (a, da) :: (b, db) :: rest =>
      pairCandidates f1 ns xmin xmax a b da db ++
        sweepZip f1 ns xmin xmax ((b, db) :: rest)
  | _ => []

/-- Lines 94-105: the denominator-zero merge.  `dz = none` models the outer
`try` failing (simplify/solve raised): no extra candidates.  A `none`
element models a root on which `float(z)` raised: that root is skipped.
Real convertible roots are kept exactly when they lie in `[xmin, xmax]`. -/
def denContribution (xmin xmax : ℚ) (dz : Option (List (Option ℚ))) : List ℚ :=
  match dz with
  | none => []
  | some roots =>
      roots.filterMap fun r =>
        r.bind fun zv => if xmin ≤ zv ∧ zv ≤ xmax then some zv else none

/-- Python 3 `round` on an integer target: round half to even. -/
def roundHalfEven (q : ℚ) : ℤ :=
  if q - (⌊q⌋ : ℚ) < 1 / 2 then ⌊q⌋
  else if (1 : ℚ) / 2 < q - (⌊q⌋ : ℚ) then ⌊q⌋ + 1
  else if ⌊q⌋ % 2 = 0 then ⌊q⌋ else ⌊q⌋ + 1

/-- `round(c, 12)`: round to the nearest multiple of `10 ^ (-12)`, ties to
even. -/
def round12 (q : ℚ) : ℚ := (roundHalfEven (q * 1000000000000) : ℚ) / 1000000000000

/-- Line 108: `sorted(list(set([round(float(c), 12) for c in crit_points])))`.
The `np.isfinite` filter is identically true in the exact-rational model
(every candidate that reached this line passed a finite comparison or is a
finite sample point), so it is the identity here. -/
def critPoints (cands : List ℚ) : List ℚ :=
  List.insertionSort (fun a b : ℚ => a ≤ b) (cands.map round12).dedup

/-- Line 111: `breaks = [x_min] + crit_points + [x_max]`. -/
def breaksOf (xmin xmax : ℚ) (crit : List ℚ) : List ℚ := xmin :: (crit ++ [xmax])

/-- Lines 114-130: the interval pairs `(breaks[i], breaks[i+1])`. -/
def intervalsOf : List ℚ → List (ℚ × ℚ)
  | a :: b :: rest => (a, b) :: intervalsOf (b :: rest)
  | _ => []

/-- The four monotonicity labels of the interval loop. -/
inductive MonoLabel where
  | indeterminado : MonoLabel
  | constante : MonoLabel
  | creciente : MonoLabel
  | decreciente : MonoLabel
deriving DecidableEq

/-- Lines 117-129: label one interval from the derivative at its midpoint.
A raised evaluation is converted to NaN by the `try/except`, and NaN gives
`indeterminado`; then `abs(dmid) <= tol` gives `constante`, `dmid > 0`
`creciente`, anything else `decreciente`. -/
def classifyMid (f1 : Evaluator) (tol a b : ℚ) : MonoLabel :=
  match f1 ((a + b) / 2) with
  | EvalResult.err => MonoLabel.indeterminado
  | EvalResult.nan => MonoLabel.indeterminado
  | EvalResult.val d =>
      if |d| ≤ tol then MonoLabel.constante
      else if 0 < d then MonoLabel.creciente
      else MonoLabel.decreciente

/-- The label list built alongside `intervals` in the same loop. -/
def labelsOf (f1 : Evaluator) (tol : ℚ) (breaks : List ℚ) : List MonoLabel :=
  (intervalsOf breaks).map fun p => classifyMid f1 tol p.1 p.2

/-- The six extremum kinds of lines 134-159 (`tipo` strings). -/
inductive ExtKind where
  | minSecond : ExtKind
  | maxSecond : ExtKind
  | maxSign : ExtKind
  | minSign : ExtKind
  | inconclusive : ExtKind
  | notEvaluable : ExtKind
deriving DecidableEq

/-- Lines 146-157: the finite-difference sign-change fallback at `c` with
`h = 1e-4`.  A raised evaluation on either side is caught and yields
`inconclusive`; NaN values fail both strict comparisons, also yielding
`inconclusive`. -/
def fallbackSign (f1 : Evaluator) (c : ℚ) : ExtKind :=
  match f1 (c - h4), f1 (c + h4) with
  | EvalResult.err, _ => ExtKind.inconclusive
  | _, EvalResult.err => ExtKind.inconclusive
  | EvalResult.val l, EvalResult.val r =>
      if 0 < l ∧ r < 0 then ExtKind.maxSign
      else if l < 0 ∧ 0 < r then ExtKind.minSign
      else ExtKind.inconclusive
  | _, _ => ExtKind.inconclusive

/-- Lines 137-159: the second-derivative test at a critical point `c`.  Only
a raised evaluation of `f2` reaches the `except` arm (`notEvaluable`); a NaN
value fails both strict sign tests and falls through to the sign-change
fallback, as does an exact zero. -/
def classifyExtremum (f1 f2 : Evaluator) (c : ℚ) : ExtKind :=
  match f2 c with
  | EvalResult.err => ExtKind.notEvaluable
  | EvalResult.nan => fallbackSign f1 c
  | EvalResult.val s =>
      if 0 < s then ExtKind.minSecond
      else if s < 0 then ExtKind.maxSecond
      else fallbackSign f1 c

/-- The analysis output consumed by the presenter: critical points, interval
pairs, their monotonicity labels, and the extremum kind per critical point. -/
structure AnalysisResult where
  crit : List ℚ
  intervals : List (ℚ × ℚ)
  labels : List MonoLabel
  kinds : List ExtKind
deriving DecidableEq

/-- Lines 48-165 composed: the whole analysis run for one input.  `none`
means the run aborted with an uncaught exception. -/
def runAnalysis (f1 f2 : Evaluator) (ns : ℚ → Option ℚ)
    (dz : Option (List (Option ℚ))) (xmin xmax : ℚ) (samples : ℕ) (tol : ℚ) :
    Option AnalysisResult :=
  let xs := linspace xmin xmax samples
  match sampleDerivs f1 xs with
  | none => none
  | some ds =>
      let cands := sweepZip f1 ns xmin xmax (xs.zip ds) ++
        denContribution xmin xmax dz
      let crit := critPoints cands
      let breaks := breaksOf xmin xmax crit
      some { crit := crit
             intervals := intervalsOf breaks
             labels := labelsOf f1 tol breaks
             kinds := crit.map fun c => classifyExtremum f1 f2 c }

/-- Constant evaluator used by concrete instances. -/
def constEval (q : ℚ) : Evaluator := fun _ => EvalResult.val q

/-- The derivative `2 x` of `f(x) = x ^ 2`, as an evaluator. -/
def f1Quad : Evaluator := fun q => EvalResult.val (2 * q)

/-- An affine derivative `3 x - 1`, whose root `1/3` is never a bisection
midpoint of the bracket `(0, 1)`. -/
def f1Line : Evaluator := fun q => EvalResult.val (3 * q - 1)

/-- A derivative evaluator that raises at `x = 0` and returns `1` elsewhere. -/
def f1Abort : Evaluator := fun q =>
  if q = 0 then EvalResult.err else EvalResult.val 1

/-- A solver that never converges (always raises). -/
def nsolveNone : ℚ → Option ℚ := fun _ => none

/-! ## Structural lemmas about the interval construction -/

theorem intervalsOf_length (a : ℚ) (t : List ℚ) :
    (intervalsOf (a :: t)).length = t.length := by
  induction t generalizing a with
  | nil => rfl
  | cons b rest ih => simp [intervalsOf, ih]

theorem intervalsOf_chain :
    ∀ l : List ℚ, List.Chain' (fun p q : ℚ × ℚ => p.2 = q.1) (intervalsOf l)
  | [] => by simp [intervalsOf]
  | [_] => by simp [intervalsOf]
  | a :: b :: rest => by
      have ih := intervalsOf_chain (b :: rest)
      cases rest with
      | nil => simp [intervalsOf]
      | cons c rest2 =>
          simp only [intervalsOf] at ih ⊢
          exact List.chain'_cons.mpr ⟨rfl, ih⟩

theorem intervalsOf_le :
    ∀ l : List ℚ, List.Chain' (· ≤ ·) l → ∀ p ∈ intervalsOf l, p.1 ≤ p.2
  | [], _, p, hp => by simp [intervalsOf] at hp
  | [_], _, p, hp => by simp [intervalsOf] at hp
  | a :: b :: rest, h, p, hp => by
      rw [List.chain'_cons] at h
      simp only [intervalsOf, List.mem_cons] at hp
      rcases hp with rfl | hp
      · exact h.1
      · exact intervalsOf_le (b :: rest) h.2 p hp

theorem intervalsOf_left_ge :
    ∀ (a : ℚ) (t : List ℚ), List.Chain' (· ≤ ·) (a :: t) →
      ∀ p ∈ intervalsOf (a :: t), a ≤ p.1
  | _, [], _, p, hp => by simp [intervalsOf] at hp
  | a, b :: rest, h, p, hp => by
      rw [List.chain'_cons] at h
      simp only [intervalsOf, List.mem_cons] at hp
      rcases hp with rfl | hp
      · exact le_refl a
      · exact le_trans h.1 (intervalsOf_left_ge b rest h.2 p hp)

theorem intervalsOf_pairwise :
    ∀ l : List ℚ, List.Chain' (· ≤ ·) l →
      List.Pairwise (fun p q : ℚ × ℚ => p.2 ≤ q.1) (intervalsOf l)
  | [], _ => by simp [intervalsOf]
  | [_], _ => by simp [intervalsOf]
  | a :: b :: rest, h => by
      rw [List.chain'_cons] at h
      simp only [intervalsOf]
      exact List.Pairwise.cons
        (fun q hq => intervalsOf_left_ge b rest h.2 q hq)
        (intervalsOf_pairwise (b :: rest) h.2)

theorem chain_le_concat :
    ∀ (t : List ℚ) (a z : ℚ), List.Chain' (· ≤ ·) (a :: (t ++ [z])) → a ≤ z
  | [], a, z, h => by
      rw [List.nil_append, List.chain'_cons] at h
      exact h.1
  | b :: t2, a, z, h => by
      rw [List.cons_append, List.chain'_cons] at h
      exact le_trans h.1 (chain_le_concat t2 b z h.2)

theorem intervalsOf_cover :
    ∀ (mid : List ℚ) (a z y : ℚ), List.Chain' (· ≤ ·) (a :: (mid ++ [z])) →
      ((a ≤ y ∧ y ≤ z) ↔
        ∃ p ∈ intervalsOf (a :: (mid ++ [z])), p.1 ≤ y ∧ y ≤ p.2)
  | [], a, z, y, _ => by simp [intervalsOf]
  | b :: mid2, a, z, y, h => by
      rw [List.cons_append, List.chain'_cons] at h
      have hbz : b ≤ z := chain_le_concat mid2 b z h.2
      have ih := intervalsOf_cover mid2 b z y h.2
      simp only [List.cons_append, intervalsOf, List.mem_cons]
      constructor
      · rintro ⟨hay, hyz⟩
        by_cases hyb : y ≤ b
        · exact ⟨(a, b), Or.inl rfl, hay, hyb⟩
        · push_neg at hyb
          obtain ⟨p, hp, hpy⟩ := ih.mp ⟨le_of_lt hyb, hyz⟩
          exact ⟨p, Or.inr hp, hpy⟩
      · rintro ⟨p, hp | hp, hpy⟩
        · rcases hp with rfl
          exact ⟨hpy.1, le_trans hpy.2 hbz⟩
        · have := ih.mpr ⟨p, hp, hpy⟩
          exact ⟨le_trans h.1 this.1, this.2⟩

theorem chain_breaks :
    ∀ (crit : List ℚ) (xmin xmax : ℚ), List.Pairwise (· < ·) crit →
      (∀ c ∈ crit, xmin ≤ c ∧ c ≤ xmax) → xmin ≤ xmax →
      List.Chain' (· ≤ ·) (xmin :: (crit ++ [xmax]))
  | [], xmin, xmax, _, _, hxx => by
      rw [List.nil_append]
      exact List.chain'_pair.mpr hxx
  | c :: rest, xmin, xmax, hp, hb, _ => by
      rw [List.pairwise_cons] at hp
      rw [List.cons_append, List.chain'_cons]
      refine ⟨(hb c (List.mem_cons_self c rest)).1, ?_⟩
      exact chain_breaks rest c xmax hp.2
        (fun d hd => ⟨le_of_lt (hp.1 d hd), (hb d (List.mem_cons_of_mem c hd)).2⟩)
        (hb c (List.mem_cons_self c rest)).2

/-! ## Claim C1 -/

/-- Claim C1, amended.  For the interval sequence built from
`[xmin] + critical_points + [xmax]`: the number of intervals (and of labels)
is `len(critical_points) + 1` and consecutive intervals share their endpoint
unconditionally; and when the critical points are strictly sorted and lie
inside `[xmin, xmax]`, every interval `(a, b)` satisfies `a ≤ b` (not the
claimed strict `a < b`: a critical point equal to a domain endpoint produces
a degenerate interval), the intervals cover exactly `[xmin, xmax]`, and
their interiors are pairwise disjoint (no overlap beyond shared
endpoints). -/
theorem c1_intervals_partition (crit : List ℚ) (xmin xmax : ℚ)
    (f1 : Evaluator) (tol : ℚ)
    (hs : List.Pairwise (· < ·) crit)
    (hb : ∀ c ∈ crit, xmin ≤ c ∧ c ≤ xmax)
    (hxx : xmin < xmax) :
    (intervalsOf (breaksOf xmin xmax crit)).length = crit.length + 1 ∧
    (labelsOf f1 tol (breaksOf xmin xmax crit)).length = crit.length + 1 ∧
    List.Chain' (fun p q : ℚ × ℚ => p.2 = q.1)
      (intervalsOf (breaksOf xmin xmax crit)) ∧
    (∀ p ∈ intervalsOf (breaksOf xmin xmax crit), p.1 ≤ p.2) ∧
    (∀ y : ℚ, (xmin ≤ y ∧ y ≤ xmax) ↔
      ∃ p ∈ intervalsOf (breaksOf xmin xmax crit), p.1 ≤ y ∧ y ≤ p.2) ∧
    List.Pairwise (fun p q : ℚ × ℚ => p.2 ≤ q.1)
      (intervalsOf (breaksOf xmin xmax crit)) := by
  have hch : List.Chain' (· ≤ ·) (breaksOf xmin xmax crit) :=
    chain_breaks crit xmin xmax hs hb (le_of_lt hxx)
  refine ⟨?_, ?_, ?_, ?_, ?_, ?_⟩
  · rw [breaksOf, intervalsOf_length, List.length_append, List.length_singleton]
  · rw [labelsOf, List.length_map, breaksOf, intervalsOf_length,
      List.length_append, List.length_singleton]
  · exact intervalsOf_chain _
  · exact intervalsOf_le _ hch
  · intro y
    exact intervalsOf_cover crit xmin xmax y hch
  · exact intervalsOf_pairwise _ hch

/-- Witness for C1 at the concrete input `crit = [1, 2]`, `[xmin, xmax] =
[0, 3]`. -/
theorem c1_intervals_partition_witness :
    (List.Pairwise (· < ·) ([1, 2] : List ℚ) ∧
      (∀ c ∈ ([1, 2] : List ℚ), (0 : ℚ) ≤ c ∧ c ≤ 3) ∧ (0 : ℚ) < 3) ∧
    ((intervalsOf (breaksOf 0 3 [1, 2])).length = ([1, 2] : List ℚ).length + 1 ∧
    (labelsOf (constEval 1) 0 (breaksOf 0 3 [1, 2])).length
      = ([1, 2] : List ℚ).length + 1 ∧
    List.Chain' (fun p q : ℚ × ℚ => p.2 = q.1)
      (intervalsOf (breaksOf 0 3 [1, 2])) ∧
    (∀ p ∈ intervalsOf (breaksOf 0 3 [1, 2]), p.1 ≤ p.2) ∧
    (∀ y : ℚ, ((0 : ℚ) ≤ y ∧ y ≤ 3) ↔
      ∃ p ∈ intervalsOf (breaksOf 0 3 [1, 2]), p.1 ≤ y ∧ y ≤ p.2) ∧
    List.Pairwise (fun p q : ℚ × ℚ => p.2 ≤ q.1)
      (intervalsOf (breaksOf 0 3 [1, 2]))) :=
  ⟨⟨by with_unfolding_all decide, by with_unfolding_all decide,
    by with_unfolding_all decide⟩,
   c1_intervals_partition [1, 2] 0 3 (constEval 1) 0
     (by with_unfolding_all decide) (by with_unfolding_all decide)
     (by with_unfolding_all decide)⟩

/-- Counterexample to C1 as stated: for `f(x) = x^2` (derivative `2 x`) on
`[0, 10]` with 3 samples, the derivative is exactly zero at the first sample
`x = 0 = xmin`, so `0` is recorded as a critical point and the first interval
of the run is the degenerate `(0, 0)`, violating `a < b`. -/
theorem c1_counterexample :
    (runAnalysis f1Quad (constEval 2) nsolveNone (some []) 0 10 3
        (1 / 1000000)).map AnalysisResult.intervals
      = some [(0, 0), (0, 10)] ∧ ¬ ((0 : ℚ) < (0 : ℚ)) := by
  with_unfolding_all decide

/-! ## Claims C2 and C10: the extrema classifier -/

theorem fallbackSign_cases (f1 : Evaluator) (c : ℚ) :
    fallbackSign f1 c = ExtKind.maxSign ∨ fallbackSign f1 c = ExtKind.minSign ∨
      fallbackSign f1 c = ExtKind.inconclusive := by
  cases hl : f1 (c - h4) with
  | err => simp [fallbackSign, hl]
  | nan => cases hr : f1 (c + h4) <;> simp [fallbackSign, hl, hr]
  | val l =>
      cases hr : f1 (c + h4) with
      | err => simp [fallbackSign, hl, hr]
      | nan => simp [fallbackSign, hl, hr]
      | val r =>
          simp only [fallbackSign, hl, hr]
          split_ifs <;> simp

/-- Claim C2.  The second-derivative test at a critical point `c`: a strictly
positive value yields the local-min kind and a strictly negative value the
local-max kind; an exact zero diverts to the finite-difference fallback at
`c ± h` with `h = 1e-4`, which classifies `(+,-)` as max-by-sign-change,
`(-,+)` as min-by-sign-change, and everything else — including any raised or
NaN evaluation during the fallback — as inconclusive.  When the test is
conclusive the result does not depend on the first-derivative evaluator at
all (the fallback path is never taken) and matches the sign. -/
theorem c2_extrema_classifier (f1 f2 : Evaluator) (c : ℚ) :
    (∀ s : ℚ, f2 c = EvalResult.val s → 0 < s →
      classifyExtremum f1 f2 c = ExtKind.minSecond) ∧
    (∀ s : ℚ, f2 c = EvalResult.val s → s < 0 →
      classifyExtremum f1 f2 c = ExtKind.maxSecond) ∧
    (f2 c = EvalResult.val 0 →
      classifyExtremum f1 f2 c = fallbackSign f1 c) ∧
    (∀ l r : ℚ, f1 (c - h4) = EvalResult.val l → f1 (c + h4) = EvalResult.val r →
      (0 < l → r < 0 → fallbackSign f1 c = ExtKind.maxSign) ∧
      (l < 0 → 0 < r → fallbackSign f1 c = ExtKind.minSign) ∧
      (¬ (0 < l ∧ r < 0) → ¬ (l < 0 ∧ 0 < r) →
        fallbackSign f1 c = ExtKind.inconclusive)) ∧
    (f1 (c - h4) = EvalResult.err → fallbackSign f1 c = ExtKind.inconclusive) ∧
    (f1 (c + h4) = EvalResult.err → fallbackSign f1 c = ExtKind.inconclusive) ∧
    (f1 (c - h4) = EvalResult.nan → fallbackSign f1 c = ExtKind.inconclusive) ∧
    (f1 (c + h4) = EvalResult.nan → fallbackSign f1 c = ExtKind.inconclusive) ∧
    (∀ s : ℚ, f2 c = EvalResult.val s → s ≠ 0 →
      (∀ g1 : Evaluator, classifyExtremum g1 f2 c = classifyExtremum f1 f2 c) ∧
      (0 < s → classifyExtremum f1 f2 c = ExtKind.minSecond) ∧
      (s < 0 → classifyExtremum f1 f2 c = ExtKind.maxSecond)) := by
  refine ⟨?_, ?_, ?_, ?_, ?_, ?_, ?_, ?_, ?_⟩
  · intro s hs hpos
    simp [classifyExtremum, hs, hpos]
  · intro s hs hneg
    have hnp : ¬ 0 < s := by linarith
    simp [classifyExtremum, hs, hnp, hneg]
  · intro hs
    simp [classifyExtremum, hs]
  · intro l r hl hr
    refine ⟨?_, ?_, ?_⟩
    · intro h1 h2
      simp [fallbackSign, hl, hr, h1, h2]
    · intro h1 h2
      have hno : ¬ (0 < l ∧ r < 0) := by rintro ⟨h3, _⟩; linarith
      simp [fallbackSign, hl, hr, hno, h1, h2]
    · intro h1 h2
      simp [fallbackSign, hl, hr, h1, h2]
  · intro hl
    cases hr : f1 (c + h4) <;> simp [fallbackSign, hl, hr]
  · intro hr
    cases hl : f1 (c - h4) <;> simp [fallbackSign, hl, hr]
  · intro hl
    cases hr : f1 (c + h4) <;> simp [fallbackSign, hl, hr]
  · intro hr
    cases hl : f1 (c - h4) <;> simp [fallbackSign, hl, hr]
  · intro s hs hne
    rcases lt_or_gt_of_ne hne with hneg | hpos
    · have hnp : ¬ 0 < s := by linarith
      refine ⟨fun g1 => ?_, fun h => absurd h hnp, fun _ => ?_⟩
      · simp [classifyExtremum, hs, hnp, hneg]
      · simp [classifyExtremum, hs, hnp, hneg]
    · have hnn : ¬ s < 0 := by linarith
      refine ⟨fun g1 => ?_, fun _ => ?_, fun h => absurd h hnn⟩
      · simp [classifyExtremum, hs, hpos]
      · simp [classifyExtremum, hs, hpos]

/-- Witness for C2 at `f1 = f2 = const 1`, `c = 0`. -/
theorem c2_extrema_classifier_witness :
    (∀ s : ℚ, constEval 1 (0 : ℚ) = EvalResult.val s → 0 < s →
      classifyExtremum (constEval 1) (constEval 1) 0 = ExtKind.minSecond) ∧
    (∀ s : ℚ, constEval 1 (0 : ℚ) = EvalResult.val s → s < 0 →
      classifyExtremum (constEval 1) (constEval 1) 0 = ExtKind.maxSecond) ∧
    (constEval 1 (0 : ℚ) = EvalResult.val 0 →
      classifyExtremum (constEval 1) (constEval 1) 0
        = fallbackSign (constEval 1) 0) ∧
    (∀ l r : ℚ, constEval 1 ((0 : ℚ) - h4) = EvalResult.val l →
      constEval 1 ((0 : ℚ) + h4) = EvalResult.val r →
      (0 < l → r < 0 → fallbackSign (constEval 1) 0 = ExtKind.maxSign) ∧
      (l < 0 → 0 < r → fallbackSign (constEval 1) 0 = ExtKind.minSign) ∧
      (¬ (0 < l ∧ r < 0) → ¬ (l < 0 ∧ 0 < r) →
        fallbackSign (constEval 1) 0 = ExtKind.inconclusive)) ∧
    (constEval 1 ((0 : ℚ) - h4) = EvalResult.err →
      fallbackSign (constEval 1) 0 = ExtKind.inconclusive) ∧
    (constEval 1 ((0 : ℚ) + h4) = EvalResult.err →
      fallbackSign (constEval 1) 0 = ExtKind.inconclusive) ∧
    (constEval 1 ((0 : ℚ) - h4) = EvalResult.nan →
      fallbackSign (constEval 1) 0 = ExtKind.inconclusive) ∧
    (constEval 1 ((0 : ℚ) + h4) = EvalResult.nan →
      fallbackSign (constEval 1) 0 = ExtKind.inconclusive) ∧
    (∀ s : ℚ, constEval 1 (0 : ℚ) = EvalResult.val s → s ≠ 0 →
      (∀ g1 : Evaluator, classifyExtremum g1 (constEval 1) 0
        = classifyExtremum (constEval 1) (constEval 1) 0) ∧
      (0 < s → classifyExtremum (constEval 1) (constEval 1) 0
        = ExtKind.minSecond) ∧
      (s < 0 → classifyExtremum (constEval 1) (constEval 1) 0
        = ExtKind.maxSecond)) :=
  c2_extrema_classifier (constEval 1) (constEval 1) 0

/-- Claim C10.  The `notEvaluable` outcome happens exactly when evaluating
the second derivative at `c` raises; a NaN value — or any value that is
neither strictly positive nor strictly negative — instead sends
classification to the sign-change fallback. -/
theorem c10_not_evaluable (f1 f2 : Evaluator) (c : ℚ) :
    (classifyExtremum f1 f2 c = ExtKind.notEvaluable ↔ f2 c = EvalResult.err) ∧
    (f2 c = EvalResult.nan → classifyExtremum f1 f2 c = fallbackSign f1 c) ∧
    (∀ s : ℚ, f2 c = EvalResult.val s → ¬ 0 < s → ¬ s < 0 →
      classifyExtremum f1 f2 c = fallbackSign f1 c) := by
  refine ⟨⟨?_, ?_⟩, ?_, ?_⟩
  · intro h
    cases hf : f2 c with
    | err => rfl
    | nan =>
        simp only [classifyExtremum, hf] at h
        rcases fallbackSign_cases f1 c with h2 | h2 | h2 <;> rw [h2] at h <;>
          exact absurd h (by decide)
    | val s =>
        simp only [classifyExtremum, hf] at h
        by_cases h1 : 0 < s
        · rw [if_pos h1] at h
          exact absurd h (by decide)
        · rw [if_neg h1] at h
          by_cases h2 : s < 0
          · rw [if_pos h2] at h
            exact absurd h (by decide)
          · rw [if_neg h2] at h
            rcases fallbackSign_cases f1 c with h3 | h3 | h3 <;> rw [h3] at h <;>
              exact absurd h (by decide)
  · intro h
    simp [classifyExtremum, h]
  · intro h
    simp [classifyExtremum, h]
  · intro s hs hnp hnn
    simp [classifyExtremum, hs, hnp, hnn]

/-- Witness for C10 at `f1 = f2 = const 0`, `c = 1`: the second derivative
evaluates to `0` (not an exception), and indeed the fallback is used. -/
theorem c10_not_evaluable_witness :
    ((classifyExtremum (constEval 0) (constEval 0) 1 = ExtKind.notEvaluable
        ↔ constEval 0 (1 : ℚ) = EvalResult.err) ∧
     (constEval 0 (1 : ℚ) = EvalResult.nan →
        classifyExtremum (constEval 0) (constEval 0) 1
          = fallbackSign (constEval 0) 1) ∧
     (∀ s : ℚ, constEval 0 (1 : ℚ) = EvalResult.val s → ¬ 0 < s → ¬ s < 0 →
        classifyExtremum (constEval 0) (constEval 0) 1
          = fallbackSign (constEval 0) 1)) :=
  c10_not_evaluable (constEval 0) (constEval 0) 1

/-! ## Claim C3: the nsolve / bisection fallback -/

theorem bisect_some_zero (f1 : Evaluator) :
    ∀ (n : ℕ) (a b m : ℚ), bisect f1 n a b = some m → f1 m = EvalResult.val 0
  | 0, a, b, m, h => by simp [bisect] at h
  | Nat.succ n, a, b, m, h => by
      rw [bisect] at h
      cases hm : f1 ((a + b) / 2) with
      | err => simp [hm] at h
      | nan =>
          simp only [hm] at h
          cases ha : f1 a with
          | err => simp [ha] at h
          | nan => simp only [ha] at h; exact bisect_some_zero f1 n _ _ m h
          | val p => simp only [ha] at h; exact bisect_some_zero f1 n _ _ m h
      | val q =>
          simp only [hm] at h
          by_cases hq : q = 0
          · rw [if_pos hq] at h
            rw [Option.some_inj] at h
            rw [← h, hm, hq]
          · rw [if_neg hq] at h
            cases ha : f1 a with
            | err => simp [ha] at h
            | nan => simp only [ha] at h; exact bisect_some_zero f1 n _ _ m h
            | val p =>
                simp only [ha] at h
                by_cases hs : npSign p * npSign q < 0
                · rw [if_pos hs] at h
                  exact bisect_some_zero f1 n _ _ m h
                · rw [if_neg hs] at h
                  exact bisect_some_zero f1 n _ _ m h

/-- Claim C3, amended.  On a sign-change bracket `(a, b)` (`da * db < 0`, so
`da ≠ 0` and the exact-zero branch contributes nothing) on which `nsolve`
raises, the sweep's contribution is exactly the result of 40 iterations of
bisection driven by the sign of the derivative at the current bracket
endpoints; the bisection records a critical point only when one of its
midpoints evaluates to exactly zero (any recorded point is an exact zero of
the derivative evaluator), and otherwise — even when a sign change persists
in the bracket — the bracket is silently discarded. -/
theorem c3_bisection_fallback (f1 : Evaluator) (ns : ℚ → Option ℚ)
    (xmin xmax a b p q : ℚ)
    (hpq : p * q < 0) (hns : ns ((a + b) / 2) = none) :
    pairCandidates f1 ns xmin xmax a b (EvalResult.val p) (EvalResult.val q)
      = (bisect f1 40 a b).toList ∧
    (∀ rr : ℚ, bisect f1 40 a b = some rr → f1 rr = EvalResult.val 0) ∧
    (bisect f1 40 a b = none →
      pairCandidates f1 ns xmin xmax a b (EvalResult.val p) (EvalResult.val q)
        = []) := by
  have hp0 : ¬ p = 0 := by
    rintro rfl
    rw [zero_mul] at hpq
    exact absurd hpq (lt_irrefl 0)
  refine ⟨?_, ?_, ?_⟩
  · simp [pairCandidates, hp0, hpq, hns]
  · intro rr h
    exact bisect_some_zero f1 40 a b rr h
  · intro hnone
    simp [pairCandidates, hp0, hpq, hns, hnone]

/-- Witness for C3 with the constant-one derivative on the (artificial)
bracket `(0, 1)` labelled `(-1, 1)`: `nsolve` fails, the bisection never
hits an exact zero, and the bracket contributes nothing. -/
theorem c3_bisection_fallback_witness :
    ((-1 : ℚ) * 1 < 0 ∧ nsolveNone (((0 : ℚ) + 1) / 2) = none) ∧
    (pairCandidates (constEval 1) nsolveNone 0 1 0 1
        (EvalResult.val (-1)) (EvalResult.val 1)
      = (bisect (constEval 1) 40 0 1).toList ∧
    (∀ rr : ℚ, bisect (constEval 1) 40 0 1 = some rr →
      constEval 1 rr = EvalResult.val 0) ∧
    (bisect (constEval 1) 40 0 1 = none →
      pairCandidates (constEval 1) nsolveNone 0 1 0 1
          (EvalResult.val (-1)) (EvalResult.val 1)
        = [])) :=
  ⟨⟨by norm_num, rfl⟩,
   c3_bisection_fallback (constEval 1) nsolveNone 0 1 0 1 (-1) 1
     (by norm_num) rfl⟩

/-- Counterexample to C3 as stated: the derivative `3 x - 1` changes sign on
the bracket `(0, 1)` (values `-1` and `2`), `nsolve` fails, and the
bisection keeps a sign-changing bracket around the root `1/3` throughout —
yet since no dyadic midpoint evaluates to exactly zero, the bracket is
discarded and no critical point is reported. -/
theorem c3_counterexample :
    pairCandidates f1Line nsolveNone 0 1 0 1
        (EvalResult.val (-1)) (EvalResult.val 2) = [] ∧
    f1Line 0 = EvalResult.val (-1) ∧ f1Line 1 = EvalResult.val 2 ∧
    ((-1 : ℚ)) * 2 < 0 := by
  with_unfolding_all decide

/-! ## Claim C4: the sampling sweep error handling -/

/-- Claim C4 (code bug).  An evaluator that raises at a sample point (here
`x = 0`, the first of the two samples of `[0, 1]`) aborts the whole sampling
step: the vectorized call raises, and the per-point fallback re-raises
because its guard `np.isnan(xi)` tests the finite input sample instead of
protecting the `f1_num(xi)` call.  The spec and claim instead require the
failure to be recorded as NaN without aborting. -/
theorem c4_sampling_abort :
    sampleDerivs f1Abort (linspace 0 1 2) = none ∧
    f1Abort 0 = EvalResult.err ∧ (0 : ℚ) ∈ linspace 0 1 2 := by
  with_unfolding_all decide

/-! ## Claim C5: the interval classifier -/

/-- Claim C5, amended with the precondition `tol ≥ 0` (any recommended
configuration).  The interval label comes from the derivative at the
midpoint `(a+b)/2`: a raised or NaN evaluation gives `indeterminado`,
`|value| ≤ tol` gives `constante`, `value > tol` gives `creciente`, and
otherwise the label is `decreciente`.  (For a negative `tol` the code tests
`value > 0` where the claim says `value > tol`.) -/
theorem c5_interval_labels (f1 : Evaluator) (tol a b : ℚ) (htol : 0 ≤ tol) :
    (f1 ((a + b) / 2) = EvalResult.err →
      classifyMid f1 tol a b = MonoLabel.indeterminado) ∧
    (f1 ((a + b) / 2) = EvalResult.nan →
      classifyMid f1 tol a b = MonoLabel.indeterminado) ∧
    (∀ d : ℚ, f1 ((a + b) / 2) = EvalResult.val d →
      (|d| ≤ tol → classifyMid f1 tol a b = MonoLabel.constante) ∧
      (tol < d → classifyMid f1 tol a b = MonoLabel.creciente) ∧
      (¬ |d| ≤ tol → ¬ tol < d →
        classifyMid f1 tol a b = MonoLabel.decreciente)) := by
  refine ⟨?_, ?_, ?_⟩
  · intro h
    simp [classifyMid, h]
  · intro h
    simp [classifyMid, h]
  · intro d hd
    refine ⟨?_, ?_, ?_⟩
    · intro habs
      simp [classifyMid, hd, habs]
    · intro hlt
      have hpos : 0 < d := lt_of_le_of_lt htol hlt
      have habs : ¬ |d| ≤ tol := by
        rw [abs_of_pos hpos]
        linarith
      simp [classifyMid, hd, habs, hpos]
    · intro habs hnlt
      have hnpos : ¬ 0 < d := by
        intro hpos
        apply habs
        rw [abs_of_pos hpos]
        linarith
      simp [classifyMid, hd, habs, hnpos]

/-- Witness for C5 with the constant-zero derivative, `tol = 1`, interval
`(0, 2)`. -/
theorem c5_interval_labels_witness :
    (0 : ℚ) ≤ 1 ∧
    ((constEval 0 (((0 : ℚ) + 2) / 2) = EvalResult.err →
      classifyMid (constEval 0) 1 0 2 = MonoLabel.indeterminado) ∧
    (constEval 0 (((0 : ℚ) + 2) / 2) = EvalResult.nan →
      classifyMid (constEval 0) 1 0 2 = MonoLabel.indeterminado) ∧
    (∀ d : ℚ, constEval 0 (((0 : ℚ) + 2) / 2) = EvalResult.val d →
      (|d| ≤ 1 → classifyMid (constEval 0) 1 0 2 = MonoLabel.constante) ∧
      ((1 : ℚ) < d → classifyMid (constEval 0) 1 0 2 = MonoLabel.creciente) ∧
      (¬ |d| ≤ 1 → ¬ (1 : ℚ) < d →
        classifyMid (constEval 0) 1 0 2 = MonoLabel.decreciente))) :=
  ⟨by norm_num, c5_interval_labels (constEval 0) 1 0 2 (by norm_num)⟩

/-- Counterexample to C5 as stated: with the (unvalidated) tolerance
`tol = -5` and midpoint derivative `-1`, the cascade of the claim demands
`increasing` (`-1 > -5` and `|-1| ≤ -5` fails), but the code tests
`dmid > 0` and labels the interval `decreciente`. -/
theorem c5_counterexample :
    constEval (-1) (((0 : ℚ) + 2) / 2) = EvalResult.val (-1) ∧
    ¬ |(-1 : ℚ)| ≤ (-5 : ℚ) ∧ (-5 : ℚ) < -1 ∧
    classifyMid (constEval (-1)) (-5) 0 2 = MonoLabel.decreciente ∧
    classifyMid (constEval (-1)) (-5) 0 2 ≠ MonoLabel.creciente := by
  with_unfolding_all decide

/-! ## Claim C6: rounding, dedup and sorting of the critical points -/

theorem critPoints_sorted_le (cands : List ℚ) :
    List.Sorted (fun a b : ℚ => a ≤ b) (critPoints cands) :=
  List.sorted_insertionSort _ _

theorem critPoints_nodup (cands : List ℚ) : (critPoints cands).Nodup :=
  (List.perm_insertionSort _ _).nodup_iff.mpr (List.nodup_dedup _)

theorem critPoints_mem_round (cands : List ℚ) (x : ℚ)
    (hx : x ∈ critPoints cands) : ∃ k : ℤ, x = (k : ℚ) / 1000000000000 := by
  have hx2 : x ∈ (cands.map round12).dedup :=
    (List.perm_insertionSort _ _).mem_iff.mp hx
  rw [List.mem_dedup] at hx2
  obtain ⟨c, _, rfl⟩ := List.mem_map.mp hx2
  exact ⟨roundHalfEven (c * 1000000000000), rfl⟩

theorem round_gap (k m : ℤ) (hle : (k : ℚ) / 1000000000000 ≤ (m : ℚ) / 1000000000000)
    (hne : (k : ℚ) / 1000000000000 ≠ (m : ℚ) / 1000000000000) :
    (k : ℚ) / 1000000000000 + 1 / 1000000000000 ≤ (m : ℚ) / 1000000000000 := by
  have hkm : (k : ℚ) ≤ m := by linarith
  have hne2 : (k : ℚ) ≠ m := by
    intro hEq
    exact hne (by rw [hEq])
  have hklt : k < m :=
    lt_of_le_of_ne (by exact_mod_cast hkm) (by exact_mod_cast hne2)
  have hk1 : k + 1 ≤ m := hklt
  have hk1q : (k : ℚ) + 1 ≤ (m : ℚ) := by exact_mod_cast hk1
  linarith

/-- Claim C6, amended.  The final critical-point list is strictly sorted
ascending and its elements are pairwise distinct by AT LEAST `1e-12` (the
rounding to 12 decimal places makes every element an integer multiple of
`1e-12`, so distinct elements are separated by at least — and possibly
exactly, not "more than" — `1e-12`).  Finiteness is trivial in the
exact-rational model. -/
theorem c6_crit_points_spacing (cands : List ℚ) :
    List.Sorted (fun a b : ℚ => a < b) (critPoints cands) ∧
    List.Pairwise (fun a b : ℚ => a + 1 / 1000000000000 ≤ b) (critPoints cands) := by
  have hand : List.Pairwise (fun a b : ℚ => a ≤ b ∧ a ≠ b) (critPoints cands) :=
    List.Pairwise.and (critPoints_sorted_le cands) (critPoints_nodup cands)
  have hgap : List.Pairwise (fun a b : ℚ => a + 1 / 1000000000000 ≤ b)
      (critPoints cands) := by
    refine hand.imp_of_mem ?_
    intro a b ha hb hab
    obtain ⟨ka, hka⟩ := critPoints_mem_round cands a ha
    obtain ⟨kb, hkb⟩ := critPoints_mem_round cands b hb
    subst hka
    subst hkb
    exact round_gap ka kb hab.1 hab.2
  refine ⟨?_, hgap⟩
  refine hgap.imp ?_
  intro a b h
  linarith

theorem roundHalfEven_intCast (k : ℤ) : roundHalfEven (k : ℚ) = k := by
  unfold roundHalfEven
  rw [Int.floor_intCast]
  norm_num

theorem round12_intDiv (k : ℤ) :
    round12 ((k : ℚ) / 1000000000000) = (k : ℚ) / 1000000000000 := by
  unfold round12
  rw [div_mul_cancel₀ (k : ℚ) (by norm_num : (1000000000000 : ℚ) ≠ 0),
    roundHalfEven_intCast]

/-- Counterexample to C6 as stated: the candidate pair `0` and `1e-12`
(produced for instance by the denominator-zero extraction) survives the
round-to-12-decimals deduplication unchanged, so the final critical-point
list contains two distinct points separated by exactly `1e-12` — not by
more than `1e-12`. -/
theorem c6_counterexample :
    critPoints [0, 1 / 1000000000000] = [0, 1 / 1000000000000] ∧
    (1 / 1000000000000 : ℚ) - 0 ≤ 1 / 1000000000000 ∧
    (0 : ℚ) ≠ 1 / 1000000000000 := by
  have h0 : round12 0 = 0 := by
    have := round12_intDiv 0
    simpa using this
  have h1 : round12 (1 / 1000000000000) = 1 / 1000000000000 := by
    have := round12_intDiv 1
    simpa using this
  have hnodup : List.Nodup [(0 : ℚ), 1 / 1000000000000] := by
    simp only [List.nodup_cons, List.mem_singleton, List.not_mem_nil,
      not_false_iff, List.nodup_nil, and_true]
    norm_num
  have hsorted : List.Sorted (fun a b : ℚ => a ≤ b)
      [(0 : ℚ), 1 / 1000000000000] := by
    refine List.sorted_cons.mpr ⟨?_, List.sorted_singleton _⟩
    intro b hb
    rw [List.mem_singleton] at hb
    rw [hb]
    norm_num
  refine ⟨?_, by norm_num, by norm_num⟩
  unfold critPoints
  rw [List.map_cons, List.map_cons, List.map_nil, h0, h1,
    List.dedup_eq_self.mpr hnodup]
  exact List.Sorted.insertionSort_eq hsorted

/-! ## Claim C7: the denominator-zero merge -/

/-- Claim C7.  A failure of the surrounding simplify/solve step (`dz = none`)
contributes no candidates and does not abort; otherwise the extra candidates
are exactly the float-convertible solver roots that lie within
`[xmin, xmax]` (roots whose conversion raised are skipped one by one). -/
theorem c7_denominator_zeros (xmin xmax : ℚ) (roots : List (Option ℚ)) :
    denContribution xmin xmax none = [] ∧
    (∀ z : ℚ, z ∈ denContribution xmin xmax (some roots) ↔
      some z ∈ roots ∧ xmin ≤ z ∧ z ≤ xmax) := by
  refine ⟨rfl, ?_⟩
  intro z
  simp only [denContribution, List.mem_filterMap]
  constructor
  · rintro ⟨r, hr, hz⟩
    cases r with
    | none => simp [Option.bind] at hz
    | some zv =>
        simp only [Option.bind] at hz
        by_cases hb : xmin ≤ zv ∧ zv ≤ xmax
        · rw [if_pos hb] at hz
          rw [Option.some_inj] at hz
          subst hz
          exact ⟨hr, hb⟩
        · rw [if_neg hb] at hz
          exact absurd hz (by simp)
  · rintro ⟨hr, h1, h2⟩
    refine ⟨some z, hr, ?_⟩
    simp only [Option.bind]
    rw [if_pos ⟨h1, h2⟩]

/-- Witness for C7 at `[xmin, xmax] = [0, 1]` and solver output
`[0.5, unconvertible, 5]`. -/
theorem c7_denominator_zeros_witness :
    denContribution 0 1 none = [] ∧
    (∀ z : ℚ, z ∈ denContribution 0 1 (some [some (1 / 2), none, some 5]) ↔
      some z ∈ [some (1 / 2), none, some 5] ∧ (0 : ℚ) ≤ z ∧ z ≤ 1) :=
  c7_denominator_zeros 0 1 [some (1 / 2), none, some 5]

/-! ## Claim C8: determinism of the pipeline -/

/-- Claim C8.  The analysis pipeline is a pure function of its inputs: two
runs with (pointwise) identical evaluators, solver, denominator-zero output
and parameters produce identical critical points, intervals, labels and
extremum kinds.  (The only internal set, `candidates`, is normalized by the
final sort, so iteration order cannot leak into the output.) -/
theorem c8_determinism (f1 f1b f2 f2b : Evaluator) (ns nsb : ℚ → Option ℚ)
    (dz dzb : Option (List (Option ℚ))) (xmin xmax : ℚ) (samples : ℕ)
    (tol : ℚ)
    (h1 : ∀ q : ℚ, f1 q = f1b q) (h2 : ∀ q : ℚ, f2 q = f2b q)
    (hns : ∀ q : ℚ, ns q = nsb q) (hdz : dz = dzb) :
    runAnalysis f1 f2 ns dz xmin xmax samples tol
      = runAnalysis f1b f2b nsb dzb xmin xmax samples tol := by
  have e1 : f1 = f1b := funext h1
  have e2 : f2 = f2b := funext h2
  have ens : ns = nsb := funext hns
  rw [e1, e2, ens, hdz]

/-- Witness for C8: the `x^2` run of the counterexample to C1, twice. -/
theorem c8_determinism_witness :
    runAnalysis f1Quad (constEval 2) nsolveNone (some []) 0 10 3 (1 / 1000000)
      = runAnalysis f1Quad (constEval 2) nsolveNone (some []) 0 10 3
          (1 / 1000000) :=
  c8_determinism f1Quad f1Quad (constEval 2) (constEval 2) nsolveNone
    nsolveNone (some []) (some []) 0 10 3 (1 / 1000000)
    (fun _ => rfl) (fun _ => rfl) (fun _ => rfl) rfl

/-! ## Claim C9: a zero only at the last sample is never reported -/

/-- `True` unless both samples carry values whose product is negative: the
pair exhibits no strict sign change. -/
def noSignChangePair (p q : ℚ × EvalResult) : Bool :=
  match p.2, q.2 with
  | EvalResult.val u, EvalResult.val v => decide (0 ≤ u * v)
  | _, _ => true

theorem sweepZip_eq_nil (f1 : Evaluator) (ns : ℚ → Option ℚ) (xmin xmax : ℚ) :
    ∀ l : List (ℚ × EvalResult),
      (∀ p ∈ l.dropLast, p.2 ≠ EvalResult.val 0) →
      List.Chain' (fun p q => noSignChangePair p q = true) l →
      sweepZip f1 ns xmin xmax l = []
  | [], _, _ => rfl
  | [_], _, _ => rfl
  | (a, da) :: (b, db) :: rest, hl, hc => by
      have hda : da ≠ EvalResult.val 0 :=
        hl (a, da) (List.mem_cons_self _ _)
      have hpair : noSignChangePair (a, da) (b, db) = true :=
        (List.chain'_cons.mp hc).1
      have hrest : sweepZip f1 ns xmin xmax ((b, db) :: rest) = [] :=
        sweepZip_eq_nil f1 ns xmin xmax ((b, db) :: rest)
          (fun p hp => hl p (List.mem_cons_of_mem _ hp))
          (List.chain'_cons.mp hc).2
      rw [sweepZip, hrest, List.append_nil]
      cases da with
      | err => cases db <;> rfl
      | nan => cases db <;> rfl
      | val p =>
          cases db with
          | err => rfl
          | nan => rfl
          | val q =>
              have hp0 : ¬ p = 0 := fun h => hda (by rw [h])
              have hprod : ¬ p * q < 0 := by
                simp only [noSignChangePair] at hpair
                have h2 : 0 ≤ p * q := of_decide_eq_true hpair
                linarith
              simp [pairCandidates, hp0, hprod]

/-- Claim C9.  The sweep records an exact zero of the derivative only at the
LEFT endpoint of a consecutive sample pair: if the derivative value is
nonzero at every sample except possibly the last one (the sample at
`x = xmax`, which is constrained by nothing here), no pair shows a strict
sign change, and the denominator-zero merge is empty, then the final
critical-point list is empty — a zero at the last sample alone is never
reported. -/
theorem c9_last_sample_zero (f1 : Evaluator) (ns : ℚ → Option ℚ)
    (xmin xmax : ℚ) (dz : Option (List (Option ℚ)))
    (l : List (ℚ × EvalResult))
    (hleft : ∀ p ∈ l.dropLast, p.2 ≠ EvalResult.val 0)
    (hnsc : List.Chain' (fun p q => noSignChangePair p q = true) l)
    (hdz : denContribution xmin xmax dz = []) :
    sweepZip f1 ns xmin xmax l = [] ∧
    critPoints (sweepZip f1 ns xmin xmax l ++ denContribution xmin xmax dz)
      = [] := by
  have hmain : sweepZip f1 ns xmin xmax l = [] :=
    sweepZip_eq_nil f1 ns xmin xmax l hleft hnsc
  refine ⟨hmain, ?_⟩
  rw [hmain, hdz]
  rfl

/-- The derivative `x - 10`, zero exactly at `x = 10`. -/
def f1Shift : Evaluator := fun q => EvalResult.val (q - 10)

/-- Witness for C9: samples `0, 5, 10` of `f1(x) = x - 10` on `[0, 10]` —
the derivative is zero exactly at the last sample `x = xmax = 10` and that
zero is not reported. -/
theorem c9_last_sample_zero_witness :
    ((∀ p ∈ ([((0 : ℚ), EvalResult.val (-10)), (5, EvalResult.val (-5)),
          (10, EvalResult.val 0)] : List (ℚ × EvalResult)).dropLast,
        p.2 ≠ EvalResult.val 0) ∧
      List.Chain' (fun p q => noSignChangePair p q = true)
        ([((0 : ℚ), EvalResult.val (-10)), (5, EvalResult.val (-5)),
          (10, EvalResult.val 0)] : List (ℚ × EvalResult)) ∧
      denContribution 0 10 (some []) = [] ∧
      ([((0 : ℚ), EvalResult.val (-10)), (5, EvalResult.val (-5)),
          (10, EvalResult.val 0)] : List (ℚ × EvalResult)).getLast?
        = some (10, EvalResult.val 0)) ∧
    (sweepZip f1Shift nsolveNone 0 10
        [((0 : ℚ), EvalResult.val (-10)), (5, EvalResult.val (-5)),
          (10, EvalResult.val 0)] = [] ∧
      critPoints (sweepZip f1Shift nsolveNone 0 10
          [((0 : ℚ), EvalResult.val (-10)), (5, EvalResult.val (-5)),
            (10, EvalResult.val 0)] ++ denContribution 0 10 (some []))
        = []) :=
  ⟨⟨by with_unfolding_all decide,
    List.chain'_cons.mpr ⟨by with_unfolding_all decide,
      List.chain'_cons.mpr ⟨by with_unfolding_all decide,
        List.chain'_singleton _⟩⟩,
    rfl, rfl⟩,
   c9_last_sample_zero f1Shift nsolveNone 0 10 (some [])
     [((0 : ℚ), EvalResult.val (-10)), (5, EvalResult.val (-5)),
       (10, EvalResult.val 0)]
     (by with_unfolding_all decide)
     (List.chain'_cons.mpr ⟨by with_unfolding_all decide,
       List.chain'_cons.mpr ⟨by with_unfolding_all decide,
         List.chain'_singleton _⟩⟩)
     rfl⟩

end Derivadas
